import Mathlib

/-!
# Verification of the STransmision modulation/channel/demodulation core

Shallow embedding of the repository's digital-communication pipeline:
bit framing with padding (`apply_padding`), Gray-coded symbol alphabets for
8FSK / 16QAM / 8PSK (`2_modulador.py`), the AWGN channel bookkeeping
(`3-canal.py`), the minimum-distance detector (`4_demodulador.py`) and the
bit-comparison stage (`5_comparacion.py`).

Bits are modelled as `Bool` (the program's 0/1 integers), signal samples as
`ℚ` (the program's floats; every value manipulated by the noiseless parts of
the pipeline is an exact small rational), and fallible stages as `Except`.
-/

set_option autoImplicit false

/-- Error taxonomy used to give the fallible stages an `Except` type.  The
source raises only a `ValueError` for an unknown modulation tag
(`4_demodulador.py` line 228); the other two constructors correspond to error
classes that the specification names but that do not occur anywhere in the
repository, and exist solely so that statements about them can be written. -/
inductive PipelineError where
  | unsupportedModulationType : PipelineError
  | invalidChannelParameter : PipelineError
  | lengthMismatch : PipelineError
deriving Repr, DecidableEq

/-- `BaseModulator.apply_padding` (`2_modulador.py` lines 52-63): append
`bits_per_symbol - (len bits % bits_per_symbol)` zero bits when the length is
not a multiple of `bits_per_symbol`; return the padded list and the count. -/
def apply_padding (bits_per_symbol : Nat) (bits : List Bool) :
    List Bool × Nat :=
  let remainder := bits.length % bits_per_symbol
  if remainder ≠ 0 then
    (bits ++ List.replicate (bits_per_symbol - remainder) false,
      bits_per_symbol - remainder)
  else
    (bits, 0)

/-- `int("".join(map(str, bit_group)), 2)` (`2_modulador.py` line 85): read a
bit group as a big-endian binary number. -/
def bitsToNat (bits : List Bool) : Nat :=
  bits.foldl (fun a b => 2 * a + b.toNat) 0

/-- `FSK8Modulator.binary_to_gray` (`2_modulador.py` lines 73-75):
`n ^ (n >> 1)`. -/
def binary_to_gray (n : Nat) : Nat :=
  n ^^^ (n >>> 1)

/-- Loop of `BaseDemodulator.gray_to_binary` (`4_demodulador.py` lines
25-31): `b = 0; while n: b ^= n; n >>= 1`.  The first argument is a fuel
bound on the iteration count (each step at least halves `n`, so `n` itself
is a sufficient bound); structural recursion on the fuel keeps the function
kernel-computable. -/
def gray_to_binary_loop : Nat → Nat → Nat → Nat
  | 0, b, _ => b
  | fuel + 1, b, n => if n = 0 then b else gray_to_binary_loop fuel (b ^^^ n) (n >>> 1)

/-- `BaseDemodulator.gray_to_binary` (`4_demodulador.py` lines 25-31). -/
def gray_to_binary (n : Nat) : Nat :=
  gray_to_binary_loop n 0 n

/-- Digit loop of Python's `bin(n)[2:]` (build the big-endian digit list of
`n`, least significant digit extracted first).  The first argument is a
fuel bound on the iteration count (`n` itself suffices, as `n` is halved
each step). -/
def natToBinDigitsAux : Nat → Nat → List Bool → List Bool
  | 0, _, acc => acc
  | fuel + 1, n, acc =>
    if n = 0 then acc else natToBinDigitsAux fuel (n / 2) ((n % 2 == 1) :: acc)

/-- Python `bin(n)[2:]` as a list of bits (most significant first);
`bin(0)[2:] = "0"`. -/
def natToBinDigits (n : Nat) : List Bool :=
  if n = 0 then [false] else natToBinDigitsAux n n []

/-- Python `str.zfill w` on a bit string: left-pad with `'0'` up to width `w`
(no truncation when already at least `w` long). -/
def zfill (w : Nat) (digits : List Bool) : List Bool :=
  List.replicate (w - digits.length) false ++ digits

/-- Chunking loop with explicit fuel (structural recursion so that the
kernel can evaluate it); the fuel is a bound on the number of chunks, and
the list length suffices for any chunk size `n ≥ 1` since every step
consumes at least one element. -/
def chunkListFuel {α : Type} : Nat → Nat → List α → List (List α)
  | 0, _, _ => []
  | _, _, [] => []
  | fuel + 1, n, a :: l => (a :: l).take n :: chunkListFuel fuel n ((a :: l).drop n)

/-- `bits[i:i+n] for i in range(0, len(bits), n)`: split a list into
consecutive chunks of `n` elements (the callers use `n = 3` or `n = 4`). -/
def chunkList {α : Type} (n : Nat) (l : List α) : List (List α) :=
  chunkListFuel l.length n l

/-- One-hot row of width `M` with value 1 at position `k`
(`one_hot_matrix[i, symbol] = 1`, `2_modulador.py` lines 95-97). -/
def oneHot (M k : Nat) : List ℚ :=
  (List.range M).map (fun j => if j = k then 1 else 0)

/-- `np.linspace(1e3, 8e3, 8)` (`2_modulador.py` line 70): eight frequencies
`1000 + 1000·i`, all exactly representable. -/
def fsk8_frequencies : List ℚ :=
  (List.range 8).map (fun i => 1000 + 1000 * (i : ℚ))

/-- Result record of `FSK8Modulator.modulate` (`2_modulador.py` lines
77-106); the modulation-type tag and constellation size are constants. -/
structure FSK8ModResult where
  modulated_signal : List (List ℚ)
  symbol_values : List ℚ
  gray_symbols : List Nat
  padding : Nat
deriving Repr, DecidableEq

/-- `FSK8Modulator.modulate` (`2_modulador.py` lines 77-106): pad, read
3-bit groups as integers, Gray-map them, and emit one-hot rows of width 8
plus the looked-up frequencies. -/
def fsk8_modulate (bits : List Bool) : FSK8ModResult :=
  let padded := apply_padding 3 bits
  let symbols := (chunkList 3 padded.1).map bitsToNat
  let gray_symbols := symbols.map binary_to_gray
  { modulated_signal := gray_symbols.map (oneHot 8)
    symbol_values := gray_symbols.map (fun g => fsk8_frequencies.getD g 0)
    gray_symbols := gray_symbols
    padding := padded.2 }

/-- The sixteen entries of `gray_symbol_map` (`2_modulador.py` lines
118-123), in the dictionary's insertion order (which fixes the one-hot
indices via `enumerate` over the keys). -/
def qam16_gray_symbol_map : List (List Bool × (ℤ × ℤ)) :=
  [([false, true, false, false], (-3, 3)),
   ([false, true, true, false], (-1, 3)),
   ([true, true, true, false], (1, 3)),
   ([true, true, false, false], (3, 3)),
   ([false, true, false, true], (-3, 1)),
   ([false, true, true, true], (-1, 1)),
   ([true, true, true, true], (1, 1)),
   ([true, true, false, true], (3, 1)),
   ([false, false, false, true], (-3, -1)),
   ([false, false, true, true], (-1, -1)),
   ([true, false, true, true], (1, -1)),
   ([true, false, false, true], (3, -1)),
   ([false, false, false, false], (-3, -3)),
   ([false, false, true, false], (-1, -3)),
   ([true, false, true, false], (1, -3)),
   ([true, false, false, false], (3, -3))]

/-- The key list of `gray_symbol_map` in insertion order. -/
def qam16_keys : List (List Bool) :=
  qam16_gray_symbol_map.map Prod.fst

/-- `symbol_to_index` (`2_modulador.py` line 125): position of a 4-bit
pattern in the table's key order. -/
def qam16_symbol_to_index (bits : List Bool) : Nat :=
  qam16_keys.indexOf bits

/-- `index_to_bits` (`4_demodulador.py` line 89): the key at a given table
position. -/
def qam16_index_to_bits (i : Nat) : List Bool :=
  qam16_keys.getD i []

/-- `gray_symbol_map[bit_string]` (`2_modulador.py` line 140): the (I, Q)
point of a 4-bit pattern. -/
def qam16_point (bits : List Bool) : ℤ × ℤ :=
  (((qam16_gray_symbol_map.find? (fun p => p.1 == bits)).map Prod.snd).getD (0, 0))

/-- Result record of `QAM16Modulator.modulate` (`2_modulador.py` lines
127-151). -/
structure QAM16ModResult where
  modulated_signal : List (List ℚ)
  iq_values : List (ℤ × ℤ)
  padding : Nat
deriving Repr, DecidableEq

/-- `QAM16Modulator.modulate` (`2_modulador.py` lines 127-151): pad, split
into 4-bit groups, look each up in the table and emit one-hot rows of width
16 at the key's table position. -/
def qam16_modulate (bits : List Bool) : QAM16ModResult :=
  let padded := apply_padding 4 bits
  let symbols := chunkList 4 padded.1
  { modulated_signal := symbols.map (fun g => oneHot 16 (qam16_symbol_to_index g))
    iq_values := symbols.map qam16_point
    padding := padded.2 }

/-- `gray_map` of the 8PSK modulator and demodulator (`2_modulador.py` line
165, `4_demodulador.py` line 142). -/
def psk8_gray_map : List Nat :=
  [0, 1, 3, 2, 6, 7, 5, 4]

/-- `inverse_gray_map` (`4_demodulador.py` line 144): `{v : k}` over the
enumeration of `gray_map`, i.e. the position of a value in the table. -/
def psk8_inverse_gray_map (s : Nat) : Nat :=
  psk8_gray_map.indexOf s

/-- Result record of `PSK8Modulator.modulate` (`2_modulador.py` lines
167-201); the trigonometric I/Q diagnostics (cos/sin of the phase) are not
used by any claim and are irrational, so they are omitted here. -/
structure PSK8ModResult where
  modulated_signal : List (List ℚ)
  gray_symbols : List Nat
  padding : Nat
deriving Repr, DecidableEq

/-- `PSK8Modulator.modulate` (`2_modulador.py` lines 167-201): pad, read
3-bit groups as integers, map through `gray_map`, emit one-hot rows of
width 8. -/
def psk8_modulate (bits : List Bool) : PSK8ModResult :=
  let padded := apply_padding 3 bits
  let symbols := (chunkList 3 padded.1).map bitsToNat
  let gray_symbols := symbols.map (fun s => psk8_gray_map.getD s 0)
  { modulated_signal := gray_symbols.map (oneHot 8)
    gray_symbols := gray_symbols
    padding := padded.2 }

/-- `np.sum((r - s_i) ** 2)` (`4_demodulador.py` line 53): squared Euclidean
distance between two equal-length vectors (the square `** 2` is written as a
product so that the kernel can evaluate it). -/
def distSq (r s : List ℚ) : ℚ :=
  (List.zipWith (fun a b => (a - b) * (a - b)) r s).sum

/-- The distance list built by `demodulate_bayes` (`4_demodulador.py` lines
50-54): for each candidate `i < M`, the squared distance from `r` to the
one-hot reference vector with value `A` at position `i`. -/
def distances (r : List ℚ) (A : ℚ) (M : Nat) : List ℚ :=
  (List.range M).map
    (fun i => distSq r ((List.range M).map (fun j => if j = i then A else 0)))

/-- `np.argmin` (used at `4_demodulador.py` line 57): index of the first
occurrence of the minimum value ("in case of multiple occurrences of the
minimum values, the indices corresponding to the first occurrence are
returned"); 0 on the empty list. -/
def argmin : List ℚ → Nat
  | [] => 0
  | [_] => 0
  | x :: y :: l =>
    let j := argmin (y :: l)
    if (y :: l).getD j 0 < x then j + 1 else 0

/-- `demodulate_bayes` (`4_demodulador.py` lines 40-59, identical in all
three demodulator classes up to the constellation size): per received row,
the index of the minimum-distance one-hot reference vector. -/
def demodulate_bayes (M : Nat) (A : ℚ) (received_matrix : List (List ℚ)) :
    List Nat :=
  received_matrix.map (fun r => argmin (distances r A M))

/-- `FSK8Demodulator.symbol_to_bits` (`4_demodulador.py` lines 61-64):
`bin(gray_to_binary symbol)[2:].zfill(3)`. -/
def fsk8_symbol_to_bits (symbol : Nat) : List Bool :=
  zfill 3 (natToBinDigits (gray_to_binary symbol))

/-- `QAM16Demodulator.symbol_to_bits` (`4_demodulador.py` lines 113-116). -/
def qam16_symbol_to_bits (symbol : Nat) : List Bool :=
  qam16_index_to_bits symbol

/-- `PSK8Demodulator.symbol_to_bits` (`4_demodulador.py` lines 167-171):
`bin(inverse_gray_map[symbol])[2:].zfill(3)`. -/
def psk8_symbol_to_bits (symbol : Nat) : List Bool :=
  zfill 3 (natToBinDigits (psk8_inverse_gray_map symbol))

/-- The bit-concatenation loop of `DemodulationSystem.demodulate_signal`
(`4_demodulador.py` lines 238-241): convert each detected symbol to its bit
pattern and concatenate in symbol order. -/
def demodulate_bits (symbol_to_bits : Nat → List Bool) (detected : List Nat) :
    List Bool :=
  (detected.map symbol_to_bits).flatten

/-- Result record of `DemodulationSystem.demodulate_signal`
(`4_demodulador.py` lines 249-255); timing and per-symbol diagnostics are
omitted. -/
structure DemodResult where
  detected_symbols : List Nat
  demodulated_bits : List Bool
deriving Repr, DecidableEq

/-- `DemodulationSystem.demodulate_signal` (`4_demodulador.py` lines
225-255): reject an unknown modulation tag (a `ValueError` in the source),
otherwise run the scheme's Bayesian detector and concatenate the recovered
bit patterns.  No other validation is performed at entry. -/
def demodulate_signal (modulation_type : String)
    (received_matrix : List (List ℚ)) (A : ℚ) :
    Except PipelineError DemodResult :=
  if modulation_type = "8FSK" then
    Except.ok
      { detected_symbols := demodulate_bayes 8 A received_matrix
        demodulated_bits :=
          demodulate_bits fsk8_symbol_to_bits (demodulate_bayes 8 A received_matrix) }
  else if modulation_type = "16QAM" then
    Except.ok
      { detected_symbols := demodulate_bayes 16 A received_matrix
        demodulated_bits :=
          demodulate_bits qam16_symbol_to_bits (demodulate_bayes 16 A received_matrix) }
  else if modulation_type = "8PSK" then
    Except.ok
      { detected_symbols := demodulate_bayes 8 A received_matrix
        demodulated_bits :=
          demodulate_bits psk8_symbol_to_bits (demodulate_bayes 8 A received_matrix) }
  else
    Except.error PipelineError.unsupportedModulationType

/-- `DemodulationSystem.remove_padding` (`4_demodulador.py` lines 257-261):
`bits[:-padding]` when `padding > 0`, else the list unchanged. -/
def remove_padding (bits : List Bool) (padding : Nat) : List Bool :=
  if padding > 0 then bits.take (bits.length - padding) else bits

/-- `add_awgn` (`3-canal.py` lines 12-16): elementwise addition of the noise
matrix to the signal matrix.  The random noise draw itself is external
input here; what the source fixes is that noise is added to every component
of every one-hot row. -/
def add_awgn (signal noise : List (List ℚ)) : List (List ℚ) :=
  List.zipWith (List.zipWith (fun a b => a + b)) signal noise

/-- The variance `sigma² = N0 / 2` of the per-component noise draw
(`3-canal.py` line 13 computes `sigma = sqrt(N0 / 2)`). -/
def awgn_variance (N0 : ℚ) : ℚ :=
  N0 / 2

/-- Metrics record of `calculate_snr_metrics` (`3-canal.py` lines 18-30).
The source reports `10 * log10` of the two ratios (in dB); the logarithm is
transcendental, so the ratios themselves are kept here. -/
structure SnrMetrics where
  Eb : ℚ
  Es : ℚ
  Eb_N0 : ℚ
  Es_N0 : ℚ
deriving Repr, DecidableEq

/-- `calculate_snr_metrics` (`3-canal.py` lines 18-30):
`bits_per_symbol = int(log2 M)`, `Eb = 1 / bits_per_symbol`,
`Es = Eb * bits_per_symbol`. -/
def calculate_snr_metrics (constellation_size : Nat) (N0 : ℚ) : SnrMetrics :=
  let bits_per_symbol : Nat := Nat.log2 constellation_size
  let Eb : ℚ := 1 / (bits_per_symbol : ℚ)
  let Es : ℚ := Eb * (bits_per_symbol : ℚ)
  { Eb := Eb, Es := Es, Eb_N0 := Eb / N0, Es_N0 := Es / N0 }

/-- The processing path of `main` in `3-canal.py` (lines 86-89) once `N0`
has been parsed: add the noise and compute the SNR metrics.  The source
performs no validation of `N0` whatsoever (no `InvalidChannelParameterError`
class exists in the repository), so this function never returns an error. -/
def channel_process (constellation_size : Nat) (N0 : ℚ)
    (signal noise : List (List ℚ)) :
    Except PipelineError (List (List ℚ) × SnrMetrics) :=
  Except.ok (add_awgn signal noise, calculate_snr_metrics constellation_size N0)

/-- Statistics record returned by
`VoiceComparisonSystem.compare_bit_sequences` (`5_comparacion.py` lines
100-156). -/
structure CompareStats where
  total_codigos : Nat
  total_bits : Nat
  errores_por_codigo : Nat
  errores_por_bit : Nat
  porcentaje_error_codigo : ℚ
  porcentaje_error_bit : ℚ
  relacion_error_bit : ℚ
  probabilidad_error_simbolo : ℚ
  codigos_erroneos : List (Nat × List Bool × List Bool)
deriving Repr, DecidableEq

/-- `VoiceComparisonSystem.compare_bit_sequences` (`5_comparacion.py` lines
100-156): when the two sequences have different lengths the source prints a
warning and compares only the first `min_length` codes — it never raises.
Codes are compared whole and bit by bit (`zip` truncates, as in Python), and
the symbol-error estimate uses the hard-coded 3 bits per symbol. -/
def compare_bit_sequences (original_bits demodulated_bits : List (List Bool)) :
    Except PipelineError CompareStats :=
  let pairs := original_bits.zip demodulated_bits
  let min_length : Nat := min original_bits.length demodulated_bits.length
  let errores_por_codigo : Nat := (pairs.filter (fun p => p.1 != p.2)).length
  let total_bits : Nat := (pairs.map (fun p => p.1.length)).sum
  let errores_por_bit : Nat :=
    (pairs.map (fun p => ((p.1.zip p.2).filter (fun q => q.1 != q.2)).length)).sum
  let relacion : ℚ :=
    if total_bits > 0 then (errores_por_bit : ℚ) / (total_bits : ℚ) else 0
  let Ps : ℚ :=
    if total_bits > 0 then 1 - (1 - relacion) * (1 - relacion) * (1 - relacion)
    else 0
  Except.ok
    { total_codigos := min_length
      total_bits := total_bits
      errores_por_codigo := errores_por_codigo
      errores_por_bit := errores_por_bit
      porcentaje_error_codigo :=
        if min_length > 0 then (errores_por_codigo : ℚ) / (min_length : ℚ) * 100 else 0
      porcentaje_error_bit :=
        if total_bits > 0 then (errores_por_bit : ℚ) / (total_bits : ℚ) * 100 else 0
      relacion_error_bit := relacion
      probabilidad_error_simbolo := Ps
      codigos_erroneos :=
        ((pairs.enum.filter (fun q => q.2.1 != q.2.2)).map
          (fun q => (q.1, q.2.1, q.2.2))).take 10 }

/-- Shape-matched all-zero noise matrix: the N0 → 0 limit of the channel's
noise draw (`np.random.normal(0, 0, shape)` returns zeros). -/
def zero_noise (signal : List (List ℚ)) : List (List ℚ) :=
  signal.map (fun r => r.map (fun _ => (0 : ℚ)))

/-- End-to-end noiseless 8FSK pipeline: modulate, pass through the channel
with zero noise, demodulate with reference amplitude `A = 1`, remove the
recorded padding (`4_demodulador.py` lines 375-379). -/
def fsk8_noiseless_pipeline (bits : List Bool) : List Bool :=
  let m := fsk8_modulate bits
  let received := add_awgn m.modulated_signal (zero_noise m.modulated_signal)
  match demodulate_signal "8FSK" received 1 with
  | Except.ok r => remove_padding r.demodulated_bits m.padding
  | Except.error _ => []

/-- End-to-end noiseless 16QAM pipeline. -/
def qam16_noiseless_pipeline (bits : List Bool) : List Bool :=
  let m := qam16_modulate bits
  let received := add_awgn m.modulated_signal (zero_noise m.modulated_signal)
  match demodulate_signal "16QAM" received 1 with
  | Except.ok r => remove_padding r.demodulated_bits m.padding
  | Except.error _ => []

/-- End-to-end noiseless 8PSK pipeline. -/
def psk8_noiseless_pipeline (bits : List Bool) : List Bool :=
  let m := psk8_modulate bits
  let received := add_awgn m.modulated_signal (zero_noise m.modulated_signal)
  match demodulate_signal "8PSK" received 1 with
  | Except.ok r => remove_padding r.demodulated_bits m.padding
  | Except.error _ => []

/-- Specification-side distance formula of the detector claim:
`d_i = Σ_j (r_j − s_i_j)²` over the index range `j < M`, with `s_i` the
one-hot vector of amplitude `A` at position `i`. -/
def specDistance (r : List ℚ) (A : ℚ) (M i : Nat) : ℚ :=
  ∑ j ∈ Finset.range M, (r.getD j 0 - if j = i then A else 0) ^ 2

/-- `j` is the position of the first minimum of `l`: in range, no element is
smaller, and every earlier element is strictly larger. -/
def isFirstMin (l : List ℚ) (j : Nat) : Prop :=
  j < l.length ∧ (∀ i < l.length, l.getD j 0 ≤ l.getD i 0) ∧
    ∀ i < j, l.getD j 0 < l.getD i 0

/-! ## Helper lemmas -/

theorem log2_eight : Nat.log2 8 = 3 := by
  simp [Nat.log2]

theorem log2_sixteen : Nat.log2 16 = 4 := by
  simp [Nat.log2]

theorem apply_padding_append (B : Nat) (bits : List Bool) :
    (apply_padding B bits).1 =
      bits ++ List.replicate (apply_padding B bits).2 false := by
  unfold apply_padding
  by_cases h : bits.length % B = 0 <;> simp [h]

theorem apply_padding_padding_lt (B : Nat) (hB : 0 < B) (bits : List Bool) :
    (apply_padding B bits).2 < B := by
  unfold apply_padding
  by_cases h : bits.length % B = 0 <;> simp [h] <;> omega

theorem apply_padding_length_mod (B : Nat) (hB : 0 < B) (bits : List Bool) :
    (apply_padding B bits).1.length % B = 0 := by
  unfold apply_padding
  by_cases h : bits.length % B = 0 <;> simp [h]
  have hr : bits.length % B < B := Nat.mod_lt _ hB
  have hd : B * (bits.length / B) + bits.length % B = bits.length :=
    Nat.div_add_mod _ _
  have he : bits.length + (B - bits.length % B) = B * (bits.length / B) + B := by
    omega
  rw [he, Nat.mul_add_mod, Nat.mod_self]

theorem remove_padding_append (bits : List Bool) (p : Nat) :
    remove_padding (bits ++ List.replicate p false) p = bits := by
  unfold remove_padding
  by_cases hp : p > 0
  · simp only [hp, if_true, List.length_append, List.length_replicate,
      Nat.add_sub_cancel]
    exact List.take_left bits _
  · simp [hp, show p = 0 by omega]

theorem argmin_isFirstMin : ∀ l : List ℚ, l ≠ [] → isFirstMin l (argmin l) := by
  intro l
  induction l with
  | nil => intro h; exact absurd rfl h
  | cons x t ih =>
    intro _
    cases t with
    | nil =>
      have h0 : argmin [x] = 0 := rfl
      refine ⟨by rw [h0]; simp, ?_, ?_⟩
      · intro i hi
        simp only [List.length_singleton] at hi
        have hi0 : i = 0 := by omega
        subst hi0
        simp [h0]
      · intro i hi
        rw [h0] at hi
        omega
    | cons y l =>
      obtain ⟨h1, h2, h3⟩ := ih (by simp)
      by_cases hlt : (y :: l).getD (argmin (y :: l)) 0 < x
      · have harg : argmin (x :: y :: l) = argmin (y :: l) + 1 := by
          simp only [argmin]
          rw [if_pos hlt]
        rw [harg]
        refine ⟨by simpa using Nat.succ_lt_succ h1, ?_, ?_⟩
        · intro i hi
          cases i with
          | zero => simpa using le_of_lt hlt
          | succ k =>
            simp only [List.getD_cons_succ]
            exact h2 k (by simpa using hi)
        · intro i hi
          cases i with
          | zero => simpa using hlt
          | succ k =>
            simp only [List.getD_cons_succ]
            exact h3 k (by omega)
      · have harg : argmin (x :: y :: l) = 0 := by
          simp only [argmin]
          rw [if_neg hlt]
        rw [harg]
        refine ⟨by simp, ?_, ?_⟩
        · intro i hi
          cases i with
          | zero => simp
          | succ k =>
            simp only [List.getD_cons_zero, List.getD_cons_succ]
            exact le_trans (not_lt.mp hlt) (h2 k (by simpa using hi))
        · intro i hi
          omega

theorem distances_length (r : List ℚ) (A : ℚ) (M : Nat) :
    (distances r A M).length = M := by
  simp [distances]

theorem argmin_distances_lt (r : List ℚ) (A : ℚ) (M : Nat) (hM : 0 < M) :
    argmin (distances r A M) < M := by
  have hne : distances r A M ≠ [] := by
    intro h
    have := distances_length r A M
    rw [h] at this
    simp at this
    omega
  have := (argmin_isFirstMin _ hne).1
  rwa [distances_length] at this

theorem join_map_chunkFuel (B : Nat) (hB : 0 < B) (f : List Bool → List Bool)
    (hf : ∀ g : List Bool, g.length = B → f g = g) :
    ∀ (fuel : Nat) (l : List Bool), l.length ≤ fuel → l.length % B = 0 →
      ((chunkListFuel fuel B l).map f).flatten = l := by
  intro fuel
  induction fuel with
  | zero =>
    intro l hle _
    have hl : l = [] := List.eq_nil_of_length_eq_zero (Nat.le_zero.mp hle)
    subst hl
    rfl
  | succ fu ih =>
    intro l hle hmod
    cases l with
    | nil => rfl
    | cons a t =>
      have hdvd : B ∣ (a :: t).length := Nat.dvd_of_mod_eq_zero hmod
      have hge : B ≤ (a :: t).length := Nat.le_of_dvd (by simp) hdvd
      have htake : ((a :: t).take B).length = B := by
        rw [List.length_take]
        omega
      have hdroplen : ((a :: t).drop B).length = (a :: t).length - B := by
        simp
      have hrest : ((a :: t).drop B).length % B = 0 := by
        obtain ⟨q, hq⟩ := Nat.dvd_sub' hdvd dvd_rfl
        rw [hdroplen, hq, Nat.mul_mod_right]
      have hle2 : ((a :: t).drop B).length ≤ fu := by
        have hlen : (a :: t).length ≤ fu + 1 := hle
        rw [hdroplen]
        omega
      simp only [chunkListFuel, List.map_cons, List.flatten_cons]
      rw [hf _ htake, ih _ hle2 hrest]
      exact List.take_append_drop B (a :: t)

theorem join_map_chunk (B : Nat) (hB : 0 < B) (f : List Bool → List Bool)
    (hf : ∀ g : List Bool, g.length = B → f g = g)
    (l : List Bool) (hmod : l.length % B = 0) :
    ((chunkList B l).map f).flatten = l :=
  join_map_chunkFuel B hB f hf l.length l le_rfl hmod

theorem zipWith_add_zero_map (r : List ℚ) :
    List.zipWith (fun a b => a + b) r (r.map (fun _ => (0 : ℚ))) = r := by
  induction r with
  | nil => rfl
  | cons x t ih =>
    simp only [List.map_cons, List.zipWith_cons_cons, add_zero, ih]

theorem add_awgn_zero_noise (m : List (List ℚ)) :
    add_awgn m (zero_noise m) = m := by
  unfold add_awgn zero_noise
  induction m with
  | nil => rfl
  | cons r t ih => simp only [List.map_cons, List.zipWith_cons_cons,
      zipWith_add_zero_map, ih, List.cons.injEq, and_self]

section ChunkRoundtrip

set_option maxRecDepth 200000

attribute [local semireducible] Rat.add Rat.sub Rat.mul

theorem fsk8_chunk_roundtrip : ∀ a b c : Bool,
    fsk8_symbol_to_bits
      (argmin (distances (oneHot 8 (binary_to_gray (bitsToNat [a, b, c]))) 1 8)) =
      [a, b, c] := by
  decide

theorem qam16_chunk_roundtrip : ∀ a b c d : Bool,
    qam16_symbol_to_bits
      (argmin (distances (oneHot 16 (qam16_symbol_to_index [a, b, c, d])) 1 16)) =
      [a, b, c, d] := by
  decide

theorem psk8_chunk_roundtrip : ∀ a b c : Bool,
    psk8_symbol_to_bits
      (argmin (distances (oneHot 8 (psk8_gray_map.getD (bitsToNat [a, b, c]) 0)) 1 8)) =
      [a, b, c] := by
  decide

end ChunkRoundtrip

theorem demod_pipeline_eq (stb : Nat → List Bool) (enc : List Bool → Nat)
    (M : Nat) (A : ℚ) (l : List (List Bool)) :
    demodulate_bits stb (demodulate_bayes M A (l.map (fun g => oneHot M (enc g)))) =
      (l.map (fun g => stb (argmin (distances (oneHot M (enc g)) A M)))).flatten := by
  simp only [demodulate_bits, demodulate_bayes, List.map_map]
  rfl

set_option maxHeartbeats 1000000 in
theorem fsk8_roundtrip (bits : List Bool) : fsk8_noiseless_pipeline bits = bits := by
  have hf : ∀ g : List Bool, g.length = 3 →
      fsk8_symbol_to_bits
        (argmin (distances (oneHot 8 (binary_to_gray (bitsToNat g))) 1 8)) = g := by
    intro g hg
    match g, hg with
    | [a, b, c], _ => exact fsk8_chunk_roundtrip a b c
  show remove_padding
      (demodulate_bits fsk8_symbol_to_bits
        (demodulate_bayes 8 1
          (add_awgn
            ((((chunkList 3 (apply_padding 3 bits).1).map bitsToNat).map
                binary_to_gray).map (oneHot 8))
            (zero_noise
              ((((chunkList 3 (apply_padding 3 bits).1).map bitsToNat).map
                  binary_to_gray).map (oneHot 8))))))
      (apply_padding 3 bits).2 = bits
  rw [add_awgn_zero_noise, List.map_map, List.map_map]
  show remove_padding
      (demodulate_bits fsk8_symbol_to_bits
        (demodulate_bayes 8 1
          ((chunkList 3 (apply_padding 3 bits).1).map
            (fun g => oneHot 8 (binary_to_gray (bitsToNat g))))))
      (apply_padding 3 bits).2 = bits
  rw [demod_pipeline_eq fsk8_symbol_to_bits (fun g => binary_to_gray (bitsToNat g)) 8 1
      (chunkList 3 (apply_padding 3 bits).1)]
  rw [join_map_chunk 3 (by norm_num) _ hf _ (apply_padding_length_mod 3 (by norm_num) bits)]
  rw [apply_padding_append 3 bits]
  exact remove_padding_append bits _

set_option maxHeartbeats 1000000 in
theorem qam16_roundtrip (bits : List Bool) : qam16_noiseless_pipeline bits = bits := by
  have hf : ∀ g : List Bool, g.length = 4 →
      qam16_symbol_to_bits
        (argmin (distances (oneHot 16 (qam16_symbol_to_index g)) 1 16)) = g := by
    intro g hg
    match g, hg with
    | [a, b, c, d], _ => exact qam16_chunk_roundtrip a b c d
  show remove_padding
      (demodulate_bits qam16_symbol_to_bits
        (demodulate_bayes 16 1
          (add_awgn
            ((chunkList 4 (apply_padding 4 bits).1).map
              (fun g => oneHot 16 (qam16_symbol_to_index g)))
            (zero_noise
              ((chunkList 4 (apply_padding 4 bits).1).map
                (fun g => oneHot 16 (qam16_symbol_to_index g)))))))
      (apply_padding 4 bits).2 = bits
  rw [add_awgn_zero_noise]
  rw [demod_pipeline_eq qam16_symbol_to_bits qam16_symbol_to_index 16 1
      (chunkList 4 (apply_padding 4 bits).1)]
  rw [join_map_chunk 4 (by norm_num) _ hf _ (apply_padding_length_mod 4 (by norm_num) bits)]
  rw [apply_padding_append 4 bits]
  exact remove_padding_append bits _

set_option maxHeartbeats 1000000 in
theorem psk8_roundtrip (bits : List Bool) : psk8_noiseless_pipeline bits = bits := by
  have hf : ∀ g : List Bool, g.length = 3 →
      psk8_symbol_to_bits
        (argmin (distances (oneHot 8 (psk8_gray_map.getD (bitsToNat g) 0)) 1 8)) = g := by
    intro g hg
    match g, hg with
    | [a, b, c], _ => exact psk8_chunk_roundtrip a b c
  show remove_padding
      (demodulate_bits psk8_symbol_to_bits
        (demodulate_bayes 8 1
          (add_awgn
            ((((chunkList 3 (apply_padding 3 bits).1).map bitsToNat).map
                (fun s => psk8_gray_map.getD s 0)).map (oneHot 8))
            (zero_noise
              ((((chunkList 3 (apply_padding 3 bits).1).map bitsToNat).map
                  (fun s => psk8_gray_map.getD s 0)).map (oneHot 8))))))
      (apply_padding 3 bits).2 = bits
  rw [add_awgn_zero_noise, List.map_map, List.map_map]
  show remove_padding
      (demodulate_bits psk8_symbol_to_bits
        (demodulate_bayes 8 1
          ((chunkList 3 (apply_padding 3 bits).1).map
            (fun g => oneHot 8 (psk8_gray_map.getD (bitsToNat g) 0)))))
      (apply_padding 3 bits).2 = bits
  rw [demod_pipeline_eq psk8_symbol_to_bits (fun g => psk8_gray_map.getD (bitsToNat g) 0) 8 1
      (chunkList 3 (apply_padding 3 bits).1)]
  rw [join_map_chunk 3 (by norm_num) _ hf _ (apply_padding_length_mod 3 (by norm_num) bits)]
  rw [apply_padding_append 3 bits]
  exact remove_padding_append bits _

/-- C1: Noiseless round-trip.  For every scheme (8FSK, 16QAM, 8PSK) and every
bitstream of 0/1 values, modulating the bits to the one-hot matrix, passing
it through the channel with zero noise, demodulating with reference
amplitude `A = 1`, and removing the recorded padding yields exactly the
original bit sequence. -/
theorem c1_noiseless_roundtrip : ∀ bits : List Bool,
    fsk8_noiseless_pipeline bits = bits ∧ qam16_noiseless_pipeline bits = bits ∧
      psk8_noiseless_pipeline bits = bits :=
  fun bits => ⟨fsk8_roundtrip bits, qam16_roundtrip bits, psk8_roundtrip bits⟩

theorem getD_range_map {β : Type} (f : Nat → β) (M i : Nat) (d : β) (hi : i < M) :
    ((List.range M).map f).getD i d = f i := by
  rw [List.getD_eq_getElem?_getD]
  simp [List.getElem?_map, List.getElem?_range, hi]

theorem sum_zipWith_getD (f : ℚ → ℚ → ℚ) :
    ∀ (a b : List ℚ), a.length = b.length →
      (List.zipWith f a b).sum =
        ∑ j ∈ Finset.range a.length, f (a.getD j 0) (b.getD j 0) := by
  intro a
  induction a with
  | nil =>
    intro b _
    simp
  | cons x t ih =>
    intro b hb
    cases b with
    | nil => simp at hb
    | cons y s =>
      simp only [List.zipWith_cons_cons, List.sum_cons, List.length_cons]
      rw [Finset.sum_range_succ']
      simp only [List.getD_cons_succ, List.getD_cons_zero]
      rw [ih s (by simpa using hb), add_comm]

/-- C2: For every received row vector `r` of length `constellationSize` and
every reference amplitude `A`, the detector computes for each candidate
index `i` the squared Euclidean distance `d_i = Σ_j (r_j − s_i_j)²` to the
one-hot vector `s_i` with value `A` at position `i`, and returns the index
minimizing `d_i`, breaking ties by the lowest index. -/
theorem c2_detector_minimum_distance :
    ∀ (M : Nat) (r : List ℚ) (A : ℚ), 0 < M → r.length = M →
      (∀ i < M, (distances r A M).getD i 0 = specDistance r A M i) ∧
        isFirstMin (distances r A M) (argmin (distances r A M)) := by
  intro M r A hM hr
  constructor
  · intro i hi
    unfold distances
    rw [getD_range_map _ M i 0 hi]
    unfold distSq specDistance
    rw [sum_zipWith_getD _ r _ (by simp [hr])]
    rw [hr]
    refine Finset.sum_congr rfl (fun j hj => ?_)
    rw [getD_range_map _ M j 0 (Finset.mem_range.mp hj), pow_two]
  · apply argmin_isFirstMin
    intro hnil
    have := distances_length r A M
    rw [hnil] at this
    simp at this
    omega

/-- C2 witness: the detector claim instantiated at the concrete received row
`[1, 0, 0, 0, 0, 0, 0, 0]` with reference amplitude 1. -/
theorem c2_detector_minimum_distance_witness :
    0 < 8 ∧ ([1, 0, 0, 0, 0, 0, 0, 0] : List ℚ).length = 8 ∧
      ((∀ i < 8, (distances [1, 0, 0, 0, 0, 0, 0, 0] 1 8).getD i 0 =
          specDistance [1, 0, 0, 0, 0, 0, 0, 0] 1 8 i) ∧
        isFirstMin (distances [1, 0, 0, 0, 0, 0, 0, 0] 1 8)
          (argmin (distances [1, 0, 0, 0, 0, 0, 0, 0] 1 8))) :=
  ⟨by norm_num, by simp,
    c2_detector_minimum_distance 8 [1, 0, 0, 0, 0, 0, 0, 0] 1 (by norm_num) (by simp)⟩


section DecideClaims

set_option maxRecDepth 400000

attribute [local semireducible] Rat.add Rat.sub Rat.mul

/-- C3: Bijection property.  For every scheme, the bits-to-symbol-index map
used by the modulator and the index-to-bits map used by the demodulator are
mutually inverse over the full index range `0..constellationSize-1`; in
particular for 8FSK `gray_to_binary (binary_to_gray n) = n` and conversely
for all `n, g < 8`, and for 8PSK the table `gray_map = [0,1,3,2,6,7,5,4]`
and `inverse_gray_map` are mutually inverse permutations of `0..7`. -/
theorem c3_bijection :
    (∀ n < 8, gray_to_binary (binary_to_gray n) = n) ∧
    (∀ g < 8, binary_to_gray (gray_to_binary g) = g) ∧
    (∀ i < 8, binary_to_gray (bitsToNat (fsk8_symbol_to_bits i)) = i) ∧
    (∀ a b c : Bool, fsk8_symbol_to_bits (binary_to_gray (bitsToNat [a, b, c])) = [a, b, c]) ∧
    (∀ i < 16, qam16_symbol_to_index (qam16_index_to_bits i) = i) ∧
    (∀ a b c d : Bool,
      qam16_index_to_bits (qam16_symbol_to_index [a, b, c, d]) = [a, b, c, d]) ∧
    (∀ n < 8, psk8_inverse_gray_map (psk8_gray_map.getD n 0) = n) ∧
    (∀ s < 8, psk8_gray_map.getD (psk8_inverse_gray_map s) 0 = s) ∧
    (∀ i < 8, psk8_gray_map.getD (bitsToNat (psk8_symbol_to_bits i)) 0 = i) ∧
    (∀ a b c : Bool,
      psk8_symbol_to_bits (psk8_gray_map.getD (bitsToNat [a, b, c]) 0) = [a, b, c]) := by
  refine ⟨by decide, by decide, by decide, by decide, by decide, by decide, by decide,
    by decide, by decide, by decide⟩

/-- C6: QAM16 canonical table.  The bit pattern `0100` maps to the
constellation point `(-3, 3)` and occupies the first table position (one-hot
index 0); the demodulator's `index_to_bits` table is the exact inverse of
the modulator's `symbol_to_index` table over all sixteen 4-bit patterns, and
with zero noise detection recovers the same 4 bits for every pattern. -/
theorem c6_qam16_table :
    qam16_point [false, true, false, false] = (-3, 3) ∧
    qam16_symbol_to_index [false, true, false, false] = 0 ∧
    qam16_gray_symbol_map.getD 0 ([], (0, 0)) = ([false, true, false, false], (-3, 3)) ∧
    (∀ i < 16, qam16_symbol_to_index (qam16_index_to_bits i) = i) ∧
    (∀ a b c d : Bool,
      qam16_index_to_bits (qam16_symbol_to_index [a, b, c, d]) = [a, b, c, d]) ∧
    (∀ a b c d : Bool,
      qam16_symbol_to_bits
        (argmin (distances (oneHot 16 (qam16_symbol_to_index [a, b, c, d])) 1 16)) =
        [a, b, c, d]) := by
  exact ⟨by decide, by decide, by decide, by decide, by decide, qam16_chunk_roundtrip⟩

/-- C7: FSK8 concrete mapping.  The constellation frequencies are
`freq[i] = 1000 + 1000·i` for `i = 0..7`; the bit group `[1,0,1]` is read as
raw value 5, Gray-mapped to `5 XOR 2 = 7`, produces the one-hot vector
`[0,0,0,0,0,0,0,1]` and frequency 8000 Hz, and with zero noise the detector
recovers index 7, whose inverse Gray transform returns the bits `[1,0,1]`. -/
theorem c7_fsk8_concrete :
    (∀ i < 8, fsk8_frequencies.getD i 0 = 1000 + 1000 * (i : ℚ)) ∧
    bitsToNat [true, false, true] = 5 ∧
    binary_to_gray 5 = 7 ∧ 5 ^^^ 2 = 7 ∧
    (fsk8_modulate [true, false, true]).gray_symbols = [7] ∧
    (fsk8_modulate [true, false, true]).modulated_signal = [[0, 0, 0, 0, 0, 0, 0, 1]] ∧
    (fsk8_modulate [true, false, true]).symbol_values = [8000] ∧
    argmin (distances [0, 0, 0, 0, 0, 0, 0, 1] 1 8) = 7 ∧
    gray_to_binary 7 = 5 ∧
    fsk8_symbol_to_bits 7 = [true, false, true] := by
  refine ⟨by decide, by decide, by decide, by decide, by decide, by decide, by decide,
    by decide, by decide, by decide⟩

theorem fsk8_symbol_to_bits_length : ∀ s < 8, (fsk8_symbol_to_bits s).length = 3 := by
  decide

theorem qam16_symbol_to_bits_length : ∀ s < 16, (qam16_symbol_to_bits s).length = 4 := by
  decide

theorem psk8_symbol_to_bits_length : ∀ s < 8, (psk8_symbol_to_bits s).length = 3 := by
  decide

end DecideClaims


/-- C4: Padding postcondition.  For every input bit list and every
`bitsPerSymbol B` in `{3, 4}`, `apply_padding` appends `B - (L mod B)` zero
bits when `L mod B ≠ 0` and no bits otherwise; the returned padded list has
length divisible by `B`, and the returned padding count `p` satisfies
`0 ≤ p < B`. -/
theorem c4_padding_postcondition :
    ∀ (bits : List Bool) (B : Nat), B = 3 ∨ B = 4 →
      (bits.length % B ≠ 0 →
        (apply_padding B bits).2 = B - bits.length % B ∧
        (apply_padding B bits).1 = bits ++ List.replicate (B - bits.length % B) false) ∧
      (bits.length % B = 0 →
        (apply_padding B bits).2 = 0 ∧ (apply_padding B bits).1 = bits) ∧
      (apply_padding B bits).1.length % B = 0 ∧
      (apply_padding B bits).2 < B := by
  intro bits B hB
  have hBpos : 0 < B := by rcases hB with h | h <;> omega
  refine ⟨?_, ?_, apply_padding_length_mod B hBpos bits,
    apply_padding_padding_lt B hBpos bits⟩
  · intro h
    unfold apply_padding
    simp [h]
  · intro h
    unfold apply_padding
    simp [h]

/-- C4 witness: the padding claim instantiated at the one-bit input `[1]`
with `B = 3`. -/
theorem c4_padding_postcondition_witness :
    ((3 : Nat) = 3 ∨ (3 : Nat) = 4) ∧
      ((([true] : List Bool).length % 3 ≠ 0 →
        (apply_padding 3 [true]).2 = 3 - [true].length % 3 ∧
        (apply_padding 3 [true]).1 = [true] ++ List.replicate (3 - [true].length % 3) false) ∧
      ([true].length % 3 = 0 →
        (apply_padding 3 [true]).2 = 0 ∧ (apply_padding 3 [true]).1 = [true]) ∧
      (apply_padding 3 [true]).1.length % 3 = 0 ∧
      (apply_padding 3 [true]).2 < 3) :=
  ⟨Or.inl rfl, c4_padding_postcondition [true] 3 (Or.inl rfl)⟩

/-- C8: Energy normalization.  For every constellation size `M` in
`{8, 16}` and every `N0 > 0`, the channel's SNR metric computation yields
`Eb = 1 / bitsPerSymbol` with `bitsPerSymbol = log2 M`, and
`Es = Eb × bitsPerSymbol` equals exactly 1 regardless of scheme. -/
theorem c8_energy_normalization :
    ∀ N0 : ℚ, 0 < N0 →
      ((calculate_snr_metrics 8 N0).Eb = 1 / 3 ∧ (calculate_snr_metrics 8 N0).Es = 1) ∧
      ((calculate_snr_metrics 16 N0).Eb = 1 / 4 ∧ (calculate_snr_metrics 16 N0).Es = 1) := by
  intro N0 _
  unfold calculate_snr_metrics
  rw [log2_eight, log2_sixteen]
  norm_num

/-- C8 witness: the energy-normalization claim instantiated at `N0 = 1`. -/
theorem c8_energy_normalization_witness :
    (0 : ℚ) < 1 ∧
      (((calculate_snr_metrics 8 1).Eb = 1 / 3 ∧ (calculate_snr_metrics 8 1).Es = 1) ∧
       ((calculate_snr_metrics 16 1).Eb = 1 / 4 ∧ (calculate_snr_metrics 16 1).Es = 1)) :=
  ⟨by norm_num, c8_energy_normalization 1 (by norm_num)⟩


theorem flatten_map_length {α : Type} (f : α → List Bool) (k : Nat) :
    ∀ l : List α, (∀ x ∈ l, (f x).length = k) →
      ((l.map f).flatten).length = l.length * k := by
  intro l
  induction l with
  | nil => simp
  | cons a t ih =>
    intro h
    simp only [List.map_cons, List.flatten_cons, List.length_append,
      List.length_cons]
    rw [h a (by simp), ih (fun x hx => h x (by simp [hx]))]
    ring

theorem mem_demodulate_bayes_lt (M : Nat) (hM : 0 < M) (A : ℚ)
    (m : List (List ℚ)) : ∀ s ∈ demodulate_bayes M A m, s < M := by
  intro s hs
  unfold demodulate_bayes at hs
  obtain ⟨r, _, rfl⟩ := List.mem_map.mp hs
  exact argmin_distances_lt r A M hM

theorem demodulate_bayes_length (M : Nat) (A : ℚ) (m : List (List ℚ)) :
    (demodulate_bayes M A m).length = m.length := by
  simp [demodulate_bayes]

/-- C10: Detector totality.  For every scheme and every real-valued received
matrix whose rows have length `constellationSize`, `demodulate_bayes`
returns for each row a symbol index `i` with `0 ≤ i < constellationSize`;
consequently every `symbol_to_bits` lookup succeeds and the concatenated
demodulated bit output (before padding removal) has length exactly
`numSymbols × bitsPerSymbol`. -/
theorem c10_detector_totality :
    ∀ (A : ℚ) (m : List (List ℚ)),
      ((∀ r ∈ m, r.length = 8) →
        (∀ s ∈ demodulate_bayes 8 A m, s < 8) ∧
        (demodulate_bits fsk8_symbol_to_bits (demodulate_bayes 8 A m)).length =
          m.length * 3) ∧
      ((∀ r ∈ m, r.length = 16) →
        (∀ s ∈ demodulate_bayes 16 A m, s < 16) ∧
        (demodulate_bits qam16_symbol_to_bits (demodulate_bayes 16 A m)).length =
          m.length * 4) ∧
      ((∀ r ∈ m, r.length = 8) →
        (∀ s ∈ demodulate_bayes 8 A m, s < 8) ∧
        (demodulate_bits psk8_symbol_to_bits (demodulate_bayes 8 A m)).length =
          m.length * 3) := by
  intro A m
  refine ⟨fun _ => ⟨mem_demodulate_bayes_lt 8 (by norm_num) A m, ?_⟩,
    fun _ => ⟨mem_demodulate_bayes_lt 16 (by norm_num) A m, ?_⟩,
    fun _ => ⟨mem_demodulate_bayes_lt 8 (by norm_num) A m, ?_⟩⟩
  · unfold demodulate_bits
    rw [flatten_map_length fsk8_symbol_to_bits 3 _
      (fun s hs => fsk8_symbol_to_bits_length s
        (mem_demodulate_bayes_lt 8 (by norm_num) A m s hs))]
    rw [demodulate_bayes_length]
  · unfold demodulate_bits
    rw [flatten_map_length qam16_symbol_to_bits 4 _
      (fun s hs => qam16_symbol_to_bits_length s
        (mem_demodulate_bayes_lt 16 (by norm_num) A m s hs))]
    rw [demodulate_bayes_length]
  · unfold demodulate_bits
    rw [flatten_map_length psk8_symbol_to_bits 3 _
      (fun s hs => psk8_symbol_to_bits_length s
        (mem_demodulate_bayes_lt 8 (by norm_num) A m s hs))]
    rw [demodulate_bayes_length]

/-- C10 witness: the totality claim instantiated, per scheme, at a one-row
all-zero matrix of the scheme's width with `A = 1`. -/
theorem c10_detector_totality_witness :
    (∀ r ∈ ([[0, 0, 0, 0, 0, 0, 0, 0]] : List (List ℚ)), r.length = 8) ∧
    ((∀ s ∈ demodulate_bayes 8 1 [[0, 0, 0, 0, 0, 0, 0, 0]], s < 8) ∧
      (demodulate_bits fsk8_symbol_to_bits
        (demodulate_bayes 8 1 [[0, 0, 0, 0, 0, 0, 0, 0]])).length = 1 * 3) ∧
    (∀ r ∈ ([[0, 0, 0, 0, 0, 0, 0, 0, 0, 0, 0, 0, 0, 0, 0, 0]] : List (List ℚ)),
      r.length = 16) ∧
    ((∀ s ∈ demodulate_bayes 16 1 [[0, 0, 0, 0, 0, 0, 0, 0, 0, 0, 0, 0, 0, 0, 0, 0]],
        s < 16) ∧
      (demodulate_bits qam16_symbol_to_bits
        (demodulate_bayes 16 1
          [[0, 0, 0, 0, 0, 0, 0, 0, 0, 0, 0, 0, 0, 0, 0, 0]])).length = 1 * 4) ∧
    ((∀ s ∈ demodulate_bayes 8 1 [[0, 0, 0, 0, 0, 0, 0, 0]], s < 8) ∧
      (demodulate_bits psk8_symbol_to_bits
        (demodulate_bayes 8 1 [[0, 0, 0, 0, 0, 0, 0, 0]])).length = 1 * 3) :=
  ⟨by simp, (c10_detector_totality 1 [[0, 0, 0, 0, 0, 0, 0, 0]]).1 (by simp),
    by simp,
    (c10_detector_totality 1 [[0, 0, 0, 0, 0, 0, 0, 0, 0, 0, 0, 0, 0, 0, 0, 0]]).2.1
      (by simp),
    (c10_detector_totality 1 [[0, 0, 0, 0, 0, 0, 0, 0]]).2.2 (by simp)⟩


theorem getD_add_awgn : ∀ (signal noise : List (List ℚ)) (i : Nat),
    (add_awgn signal noise).getD i [] =
      List.zipWith (fun a b => a + b) (signal.getD i []) (noise.getD i []) := by
  intro signal
  induction signal with
  | nil =>
    intro noise i
    cases noise <;> cases i <;> simp [add_awgn]
  | cons r t ih =>
    intro noise i
    cases noise with
    | nil => cases i <;> simp [add_awgn]
    | cons w u =>
      cases i with
      | zero => simp [add_awgn]
      | succ k => simpa [add_awgn] using ih u k

/-- C5 counterexample: at `N0 = -1 ≤ 0` the channel operation does not fail
with any error — it returns normally, with the supplied noise already added
to the signal (`3-canal.py` performs no validation of `N0` and defines no
`InvalidChannelParameterError`). -/
theorem c5_counterexample :
    channel_process 8 (-1) [[1]] [[1/2]] =
      Except.ok ([[3/2]],
        { Eb := 1/3, Es := 1, Eb_N0 := -(1/3), Es_N0 := -1 }) := by
  unfold channel_process add_awgn calculate_snr_metrics
  rw [log2_eight]
  norm_num

/-- C5 amended: the channel performs no validation of `N0` — for every `N0`
(positive or not) the processing path succeeds, adding the externally drawn
noise matrix elementwise to the one-hot matrix (every component of every
row), and the noise draw is parameterized by the standard deviation
`sqrt(N0 / 2)`, i.e. variance `N0 / 2`. -/
theorem c5_channel_no_validation :
    ∀ (M : Nat) (N0 : ℚ) (signal noise : List (List ℚ)),
      channel_process M N0 signal noise =
        Except.ok (add_awgn signal noise, calculate_snr_metrics M N0) ∧
      awgn_variance N0 = N0 / 2 ∧
      ∀ i, (add_awgn signal noise).getD i [] =
        List.zipWith (fun a b => a + b) (signal.getD i []) (noise.getD i []) :=
  fun _ _ signal noise => ⟨rfl, rfl, getD_add_awgn signal noise⟩

section CompareDecide

set_option maxRecDepth 400000

attribute [local semireducible] Rat.add Rat.sub Rat.mul Rat.inv

/-- C9 counterexample: comparing the two-code sequence `["1", "0"]` against
the one-code sequence `["1"]` — a length mismatch — does not fail with
`LengthMismatchError`; the stage returns full statistics computed over the
one-code common prefix (partial processing of the mismatched data). -/
theorem c9_counterexample :
    compare_bit_sequences [[true], [false]] [[true]] =
      Except.ok
        { total_codigos := 1, total_bits := 1, errores_por_codigo := 0,
          errores_por_bit := 0, porcentaje_error_codigo := 0,
          porcentaje_error_bit := 0, relacion_error_bit := 0,
          probabilidad_error_simbolo := 0, codigos_erroneos := [] } := by
  rfl

end CompareDecide

/-- C9 amended: on a length mismatch `compare_bit_sequences` does not fail —
it compares the first `min` codes and returns statistics over that prefix
(the source merely prints a warning); and the only eager validation at the
entry of `demodulate_signal` is the modulation-type check, which raises for
an unknown tag (a `ValueError` in the source).  No `LengthMismatchError`
exists in the repository. -/
theorem c9_no_length_mismatch_failure :
    (∀ original demodulated : List (List Bool),
      ∃ s, compare_bit_sequences original demodulated = Except.ok s ∧
        s.total_codigos = min original.length demodulated.length) ∧
    (∀ (mt : String) (m : List (List ℚ)) (A : ℚ),
      mt ≠ "8FSK" → mt ≠ "16QAM" → mt ≠ "8PSK" →
        demodulate_signal mt m A =
          Except.error PipelineError.unsupportedModulationType) := by
  constructor
  · intro o d
    exact ⟨_, rfl, rfl⟩
  · intro mt m A h1 h2 h3
    unfold demodulate_signal
    rw [if_neg h1, if_neg h2, if_neg h3]

/-- C9 witness: the amended claim applied to the mismatched pair from the
counterexample and to the unknown modulation tag `"XXX"`. -/
theorem c9_no_length_mismatch_failure_witness :
    ("XXX" ≠ "8FSK") ∧ ("XXX" ≠ "16QAM") ∧ ("XXX" ≠ "8PSK") ∧
    (∃ s, compare_bit_sequences [[true], [false]] [[true]] = Except.ok s ∧
      s.total_codigos = min 2 1) ∧
    demodulate_signal "XXX" [] 1 =
      Except.error PipelineError.unsupportedModulationType :=
  ⟨by decide, by decide, by decide,
    (c9_no_length_mismatch_failure).1 [[true], [false]] [[true]],
    (c9_no_length_mismatch_failure).2 "XXX" [] 1 (by decide) (by decide) (by decide)⟩

/-- C3 witness: the Gray round-trip applied at the concrete raw value 5. -/
theorem c3_bijection_witness :
    5 < 8 ∧ gray_to_binary (binary_to_gray 5) = 5 :=
  ⟨by decide, c3_bijection.1 5 (by decide)⟩

/-- C6 witness: the table inversion applied at the concrete index 0. -/
theorem c6_qam16_table_witness :
    0 < 16 ∧ qam16_symbol_to_index (qam16_index_to_bits 0) = 0 :=
  ⟨by decide, c6_qam16_table.2.2.2.1 0 (by decide)⟩

/-- C7 witness: the frequency formula applied at the concrete index 7. -/
theorem c7_fsk8_concrete_witness :
    7 < 8 ∧ fsk8_frequencies.getD 7 0 = 1000 + 1000 * ((7 : Nat) : ℚ) :=
  ⟨by decide, c7_fsk8_concrete.1 7 (by decide)⟩
